import Mathlib

/-!
Verification of the Rover differential-drive control engine.

The definitions below are a shallow embedding of the repository's motor
control code.  The main sources are:

* `rover_server.py` — the asyncio tank-drive server: `StepperMotor`
  (`STEP_SEQUENCE`, `step`, `run_at_speed`, `stop`) and
  `RoverMotorController` (`set_tank_drive`, `execute_command`).
* `WebRover_3.py` — the threaded variant: `move_motor`, `move_rover`,
  `apply_deadzone` and the joystick handler `handle_controller_data`.

Python floats are modelled as exact rationals (`Rat`); GPIO pin writes are
modelled by recording the last written coil pattern and, where relevant, the
full trace of written patterns.  Concurrency (asyncio task cancellation,
thread stop flags) is modelled by explicit schedules of events observed at
the loop's sleep points, and by a small FIFO event-loop for the
cancel-then-restart discipline of `set_tank_drive`.
-/

namespace Rover

/-- Coil activation table of `StepperMotor`, `rover_server.py` lines 49-58:
eight half-step patterns, four coil values each. -/
def STEP_SEQUENCE : List (List Nat) :=
  [[1, 0, 0, 0],
   [1, 1, 0, 0],
   [0, 1, 0, 0],
   [0, 1, 1, 0],
   [0, 0, 1, 0],
   [0, 0, 1, 1],
   [0, 0, 0, 1],
   [1, 0, 0, 1]]

/-- Mutable state of one `StepperMotor` (`rover_server.py` lines 60-67).
The `coils` field records the values last written to the four GPIO pins;
`__init__` drives all pins low, hence the initial pattern `[0,0,0,0]`. -/
structure Motor where
  currentStep : Int
  isRunning : Bool
  currentSpeed : Rat
  coils : List Nat
deriving DecidableEq

/-- A freshly constructed motor: step index 0, not running, speed 0, all
coils driven low by `setup_gpio`. -/
def motor0 : Motor :=
  { currentStep := 0, isRunning := false, currentSpeed := 0, coils := [0, 0, 0, 0] }

/-- One step of the motor, `StepperMotor.step` (`rover_server.py` lines
77-84): advance the index by `direction` modulo the table length and write
the pattern stored at the new index to the coils. -/
def stepMotor (m : Motor) (direction : Int) : Motor :=
  let i := (m.currentStep + direction) % (STEP_SEQUENCE.length : Int)
  { m with currentStep := i, coils := STEP_SEQUENCE.getD i.toNat [] }

/-- The `StepperMotor.stop` method (`rover_server.py` lines 115-121): clear
the running flag and the speed, and drive all four coils low. -/
def stopMotor (m : Motor) : Motor :=
  { m with isRunning := false, currentSpeed := 0, coils := [0, 0, 0, 0] }

/-- What the environment does while the stepping loop awaits its per-step
sleep: nothing, deliver asyncio cancellation, or mutate the shared
`is_running` / `current_speed` fields from another coroutine. -/
inductive SleepEvent where
  | pass
  | cancel
  | update (running : Bool) (speed : Rat)
deriving DecidableEq

/-- How an activation of `run_at_speed` ended: through the deadzone guard,
through the `while` condition turning false, by a `CancelledError` raised at
the sleep point, or not yet (still parked in a sleep when the observed
schedule ran out). -/
inductive ExitPath where
  | deadzone
  | loopExit
  | cancelled
  | stillSleeping
deriving DecidableEq

/-- The `while` loop of `run_at_speed` (`rover_server.py` lines 111-113):
`while self.is_running and abs(self.current_speed) > 0.1`, one `step` and
one interruptible sleep per iteration.  The schedule lists what happens at
each successive sleep.  A `CancelledError` delivered during the sleep
propagates out of the bare loop body, so the cancelled exit leaves the
coils exactly as the last `step` wrote them. -/
def runLoop (direction : Int) : Motor → List SleepEvent → Motor × ExitPath
  | m, [] =>
    if m.isRunning ∧ 1/10 < |m.currentSpeed| then
      (stepMotor m direction, .stillSleeping)
    else (m, .loopExit)
  | m, e :: rest =>
    if m.isRunning ∧ 1/10 < |m.currentSpeed| then
      let m1 := stepMotor m direction
      match e with
      | .pass => runLoop direction m1 rest
      | .cancel => (m1, .cancelled)
      | .update b s => runLoop direction { m1 with isRunning := b, currentSpeed := s } rest
    else (m, .loopExit)

/-- The body of `StepperMotor.run_at_speed` (`rover_server.py` lines
86-113): record the requested speed and set the running flag; if
`abs(speed) < 0.1` (the deadzone guard) call `stop` and return; otherwise
derive the direction from the sign of the speed and enter the stepping
loop. -/
def run_at_speed (m : Motor) (speed : Rat) (sched : List SleepEvent) : Motor × ExitPath :=
  let m1 : Motor := { m with currentSpeed := speed, isRunning := true }
  if |speed| < 1/10 then (stopMotor m1, .deadzone)
  else runLoop (if 0 < speed then 1 else -1) m1 sched

/-- Base per-step delay of `run_at_speed` (`rover_server.py` line 105):
`base_delay = 0.001`. -/
def BASE_DELAY : Rat := 1/1000

/-- Delay computation of `run_at_speed` (`rover_server.py` lines 101-106):
`none` when the deadzone guard returns before the division, otherwise
`base_delay / abs(speed)`.  No lower bound is applied to the quotient. -/
def computeDelay (speed : Rat) : Option Rat :=
  if |speed| < 1/10 then none else some (BASE_DELAY / |speed|)

/-- Per-step delay as the specification words it: a `MIN_DELAY` floor
applied to the quotient `BASE_DELAY / |speed|`.  Stated here only to be
compared against `computeDelay`, which is what the source computes. -/
def delaySpecMinFloor (minDelay speed : Rat) : Rat :=
  max minDelay (BASE_DELAY / |speed|)

/-- The two motors owned by `RoverMotorController` (`rover_server.py` lines
124-138).  The task handles are not part of the state model; cancellation
is modelled by the schedules fed to `run_at_speed` and by the FIFO event
loop below. -/
structure Controller where
  leftMotor : Motor
  rightMotor : Motor
deriving DecidableEq

/-- The `RoverMotorController.stop` method (`rover_server.py` lines
177-185): stop both motors (which deasserts their coils) and cancel any
outstanding tasks. -/
def controllerStop (c : Controller) : Controller :=
  { leftMotor := stopMotor c.leftMotor, rightMotor := stopMotor c.rightMotor }

/-- State effect of `RoverMotorController.set_tank_drive` (`rover_server.py`
lines 140-159): each channel's new `run_at_speed` task is started at the
given speed; the per-channel schedule records what its loop then observes. -/
def setTankDrive (c : Controller) (l r : Rat) (sl sr : List SleepEvent) : Controller :=
  { leftMotor := (run_at_speed c.leftMotor l sl).1
    rightMotor := (run_at_speed c.rightMotor r sr).1 }

/-- State effect of `RoverMotorController.execute_command` (`rover_server.py`
lines 187-200): always `self.stop()` first, then dispatch on the command
string; `move_forward` etc. (lines 161-175) call `set_tank_drive` with the
fixed speed pairs, while the `"stop"` branch is `pass` and unknown commands
fall through. -/
def executeCommand (c : Controller) (command : String) (sl sr : List SleepEvent) : Controller :=
  let c1 := controllerStop c
  if command = "forward" then setTankDrive c1 1 1 sl sr
  else if command = "backward" then setTankDrive c1 (-1) (-1) sl sr
  else if command = "left" then setTankDrive c1 (-(1/2)) (1/2) sl sr
  else if command = "right" then setTankDrive c1 (1/2) (-(1/2)) sl sr
  else c1

/-- The speed pair that `execute_command` hands to `set_tank_drive` for a
given command string, or `none` when no `set_tank_drive` call is made
(`rover_server.py` lines 187-200: the `"stop"` branch is `pass`, and
unrecognised commands do nothing beyond the initial `self.stop()`). -/
def executeCommandPair (command : String) : Option (Rat × Rat) :=
  if command = "forward" then some (1, 1)
  else if command = "backward" then some (-1, -1)
  else if command = "left" then some (-(1/2), 1/2)
  else if command = "right" then some (1/2, -(1/2))
  else none

/-- Continuation state of one asyncio task of the event-loop model:
about to make its first run of `run_at_speed` at a given speed, parked in
the per-step sleep of the stepping loop (with its direction and whether
`Task.cancel` has been requested), or finished. -/
inductive TaskSt where
  | entry (speed : Rat)
  | parked (direction : Int) (cancelRequested : Bool)
  | finished (e : ExitPath)
deriving DecidableEq

/-- A task of the event-loop model, tagged with whether it is the new task
created by the latest `set_tank_drive` call (`isNew = true`) or the loop it
superseded. -/
structure EvTask where
  isNew : Bool
  st : TaskSt
deriving DecidableEq

/-- Event-loop state for one motor channel: the shared motor object, the
FIFO ready queue, and the trace of coil patterns written so far, each
tagged with the writing task. -/
structure EvState where
  motor : Motor
  queue : List EvTask
  writes : List (Bool × List Nat)
deriving DecidableEq

/-- One scheduling step of the single-threaded asyncio event loop, running
the task at the head of the ready queue up to its next await point.  A
parked task with a pending cancellation resumes with `CancelledError`,
which propagates out of `run_at_speed` (no handler, `rover_server.py` lines
111-113), so it retires without touching the motor.  A parked task without
one re-checks the `while` condition, steps the motor (a coil write) and
goes back to sleep at the queue's tail.  An entry task runs the prologue of
`run_at_speed`: deadzone guard (lines 101-103) or first step of the loop. -/
def evStep (s : EvState) : EvState :=
  match s.queue with
  | [] => s
  | t :: rest =>
    match t.st with
    | .finished _ => { s with queue := rest }
    | .parked _ true => { s with queue := rest }
    | .parked d false =>
      if s.motor.isRunning ∧ 1/10 < |s.motor.currentSpeed| then
        let m1 := stepMotor s.motor d
        { motor := m1
          queue := rest ++ [{ isNew := t.isNew, st := .parked d false }]
          writes := s.writes ++ [(t.isNew, m1.coils)] }
      else { s with queue := rest }
    | .entry sp =>
      let m1 : Motor := { s.motor with currentSpeed := sp, isRunning := true }
      if |sp| < 1/10 then { s with motor := stopMotor m1, queue := rest }
      else
        let d : Int := if 0 < sp then 1 else -1
        let m2 := stepMotor m1 d
        { motor := m2
          queue := rest ++ [{ isNew := t.isNew, st := .parked d false }]
          writes := s.writes ++ [(t.isNew, m2.coils)] }

/-- Iterate the event loop a given number of scheduling steps. -/
def evRun : Nat → EvState → EvState
  | 0, s => s
  | n + 1, s => evRun n (evStep s)

/-- One channel of `set_tank_drive` (`rover_server.py` lines 150-159) as
seen by the event loop: the channel's old loop is parked at its sleep;
`task.cancel()` marks it cancelled (it will resume with `CancelledError`),
and `asyncio.create_task` appends the new `run_at_speed` task behind it, so
FIFO order resumes the cancelled loop first. -/
def setTankChannel (m : Motor) (oldDir : Int) (newSpeed : Rat) : EvState :=
  { motor := m
    queue := [{ isNew := false, st := .parked oldDir true },
              { isNew := true, st := .entry newSpeed }]
    writes := [] }

/-- Motor state of a channel whose `run_at_speed(1.0)` loop has performed
one step and is parked in its per-step sleep, about to be superseded by a
`set_tank_drive` call. -/
def mParked : Motor := (run_at_speed motor0 1 []).1

/-- Coil activation table of `WebRover_3.py` lines 26-35 (the same eight
half-step patterns, rotated by one relative to `STEP_SEQUENCE`). -/
def step_sequence : List (List Nat) :=
  [[1, 0, 0, 1],
   [1, 0, 0, 0],
   [1, 1, 0, 0],
   [0, 1, 0, 0],
   [0, 1, 1, 0],
   [0, 0, 1, 0],
   [0, 0, 1, 1],
   [0, 0, 0, 1]]

/-- The index sequence `range(8)[::direction]` of the inner loop of
`move_motor` (`WebRover_3.py` line 157); its callers only pass 1 or -1. -/
def innerIndices (direction : Int) : List Nat :=
  if direction = 1 then [0, 1, 2, 3, 4, 5, 6, 7]
  else if direction = -1 then [7, 6, 5, 4, 3, 2, 1, 0]
  else []

/-- Inner loop of `move_motor` (`WebRover_3.py` lines 157-164): before each
pattern write the stop flag is polled (one poll per time tick); a set flag
breaks out, otherwise the pattern for the current index is written to the
four pins.  Returns the next tick and the patterns written. -/
def runInner (flag : Nat → Bool) : List Nat → Nat → Nat × List (List Nat)
  | [], t => (t, [])
  | s :: rest, t =>
    if flag t then (t + 1, [])
    else
      let r := runInner flag rest (t + 1)
      (r.1, step_sequence.getD s [] :: r.2)

/-- Outer loop of `move_motor` (`WebRover_3.py` lines 152-164): up to
`step_count` full cycles, polling the stop flag before each cycle and
within the inner loop. -/
def runOuter (flag : Nat → Bool) (direction : Int) : Nat → Nat → List (List Nat)
  | 0, _ => []
  | n + 1, t =>
    if flag t then []
    else
      let r := runInner flag (innerIndices direction) (t + 1)
      r.2 ++ runOuter flag direction n r.1

/-- Result of a `move_motor` call: the trace of patterns written by the
loops and the final output values of the four pins. -/
structure MoveResult where
  writes : List (List Nat)
  pins : List Nat
deriving DecidableEq

/-- The whole of `move_motor` (`WebRover_3.py` lines 150-168): run the
flag-guarded stepping loops and then, unconditionally, drive all four pins
low (lines 166-168, "Turn off all pins when done"). -/
def move_motor (stepCount : Nat) (direction : Int) (flag : Nat → Bool) : MoveResult :=
  { writes := runOuter flag direction stepCount 0, pins := [0, 0, 0, 0] }

/-- The default stick deadzone of `WebRover_2.py` / `WebRover_3.py`
(line 14): `DEADZONE = 0.2`. -/
def DEADZONE : Rat := 1/5

/-- The `apply_deadzone` function (`WebRover_3.py` lines 207-213 and
`WebRover_2.py` lines 69-75): zero inside the deadzone, otherwise the
remaining range rescaled back to full scale. -/
def apply_deadzone (value : Rat) (deadzone : Rat) : Rat :=
  if |value| < deadzone then 0
  else if 0 < value then (value - deadzone) / (1 - deadzone)
  else (value + deadzone) / (1 - deadzone)

/-- Sign of a rational, used to state the specification's closed form
`sign(v) * (|v| - dz) / (1 - dz)` for `apply_deadzone`. -/
def signR (v : Rat) : Rat := if 0 < v then 1 else if v < 0 then -1 else 0

/-- Arcade-mode power mixing of `handle_controller_data` (`WebRover_3.py`
lines 762-775, `WebRover_2.py` lines 446-459): sum and difference of the
post-deadzone forward and turn values, renormalised by the larger magnitude
when it exceeds 1. -/
def arcadeDrive (forward turn : Rat) : Rat × Rat :=
  let left_power := forward + turn
  let right_power := forward - turn
  let max_power := max |left_power| |right_power|
  if 1 < max_power then (left_power / max_power, right_power / max_power)
  else (left_power, right_power)

/-- The step budget scale of the joystick handlers (`WebRover_3.py` line
15): `MAX_SPEED_STEPS = 200`. -/
def MAX_SPEED_STEPS : Rat := 200

/-- Python's `int()` conversion applied to an exact rational: truncation
toward zero. -/
def pyInt (q : Rat) : Int := if q < 0 then -⌊-q⌋ else ⌊q⌋

/-- Tank-drive branch of `handle_controller_data` together with its final
significance gate (`WebRover_3.py` lines 776-785, `WebRover_2.py` lines
460-469): scale the post-deadzone stick values to step counts and call
`move_rover` only when one of them exceeds 5 steps in magnitude; `none`
means no call is made and the previous motor state is kept. -/
def handleTankFrame (leftY rightY : Rat) : Option (Int × Int) :=
  let left_steps := pyInt (apply_deadzone leftY DEADZONE * MAX_SPEED_STEPS)
  let right_steps := pyInt (apply_deadzone rightY DEADZONE * MAX_SPEED_STEPS)
  if 5 < |left_steps| ∨ 5 < |right_steps| then some (left_steps, right_steps) else none

/-- Every entry of the step table within bounds is a four-element 0/1
pattern. -/
theorem stepTable_entries :
    ∀ j : Nat, j < 8 →
      (STEP_SEQUENCE.getD j []).length = 4
      ∧ ∀ b ∈ STEP_SEQUENCE.getD j [], b = 0 ∨ b = 1 := by
  decide

/-- C5 (confirmed): one step of the step table takes index `i` and
direction `d` to index `(i + d) mod 8` and writes the pattern stored at
that index, a four-element 0/1 sequence; the new index stays in `[0, 8)`,
stepping forward from 7 wraps to 0 and stepping backward from 0 wraps to
7.  The function is total, with no side effect beyond the recorded motor
state. -/
theorem C5_step_table (m : Motor) (d : Int) :
    (stepMotor m d).currentStep = (m.currentStep + d) % 8
    ∧ (stepMotor m d).coils = STEP_SEQUENCE.getD ((m.currentStep + d) % 8).toNat []
    ∧ 0 ≤ (stepMotor m d).currentStep
    ∧ (stepMotor m d).currentStep < 8
    ∧ (stepMotor m d).coils.length = 4
    ∧ (∀ b ∈ (stepMotor m d).coils, b = 0 ∨ b = 1)
    ∧ (m.currentStep = 7 → d = 1 → (stepMotor m d).currentStep = 0)
    ∧ (m.currentStep = 0 → d = -1 → (stepMotor m d).currentStep = 7) := by
  have hlen : (STEP_SEQUENCE.length : Int) = 8 := by decide
  have hmod0 : 0 ≤ (m.currentStep + d) % 8 :=
    Int.emod_nonneg _ (by decide)
  have hmod8 : (m.currentStep + d) % 8 < 8 :=
    Int.emod_lt_of_pos _ (by decide)
  have hnat : ((m.currentStep + d) % 8).toNat < 8 := by omega
  refine ⟨by simp [stepMotor, hlen], by simp [stepMotor, hlen], ?_, ?_, ?_, ?_, ?_, ?_⟩
  · simpa [stepMotor, hlen] using hmod0
  · simpa [stepMotor, hlen] using hmod8
  · simpa [stepMotor, hlen] using (stepTable_entries _ hnat).1
  · simpa [stepMotor, hlen] using (stepTable_entries _ hnat).2
  · intro h7 hd; simp [stepMotor, hlen, h7, hd]
  · intro h0 hd; simp [stepMotor, hlen, h0, hd]

/-- C4 (confirmed): a `run_at_speed` call whose speed is inside the
deadzone performs no stepping at all: it takes the `stop` path, leaving
the channel not running with speed 0, all four coils deasserted, and the
step index untouched; moreover any stepping loop observing the resulting
motor state exits immediately without a further write. -/
theorem C4_deadzone_stop (m : Motor) (speed : Rat) (sched : List SleepEvent)
    (h : |speed| < 1/10) :
    run_at_speed m speed sched =
      (stopMotor { m with currentSpeed := speed, isRunning := true }, ExitPath.deadzone)
    ∧ (run_at_speed m speed sched).1.isRunning = false
    ∧ (run_at_speed m speed sched).1.currentSpeed = 0
    ∧ (run_at_speed m speed sched).1.coils = [0, 0, 0, 0]
    ∧ (run_at_speed m speed sched).1.currentStep = m.currentStep
    ∧ ∀ d2 sched2,
        runLoop d2 (run_at_speed m speed sched).1 sched2 =
          ((run_at_speed m speed sched).1, ExitPath.loopExit) := by
  have he : run_at_speed m speed sched =
      (stopMotor { m with currentSpeed := speed, isRunning := true }, ExitPath.deadzone) := by
    simp only [run_at_speed]
    rw [if_pos h]
  refine ⟨he, ?_, ?_, ?_, ?_, ?_⟩
  · simp [he, stopMotor]
  · simp [he, stopMotor]
  · simp [he, stopMotor]
  · simp [he, stopMotor]
  · intro d2 sched2
    cases sched2 <;> simp [he, runLoop, stopMotor]

/-- Witness for C4 at the spec's own scenario `set_speeds(0.05, 0.05)`:
0.05 is inside the default deadzone 0.1 and both channels end idle with
their coils deasserted. -/
theorem C4_witness :
    |(1/20 : Rat)| < 1/10
    ∧ (setTankDrive { leftMotor := motor0, rightMotor := motor0 }
        (1/20) (1/20) [] []).leftMotor.isRunning = false
    ∧ (setTankDrive { leftMotor := motor0, rightMotor := motor0 }
        (1/20) (1/20) [] []).rightMotor.isRunning = false
    ∧ (setTankDrive { leftMotor := motor0, rightMotor := motor0 }
        (1/20) (1/20) [] []).leftMotor.coils = [0, 0, 0, 0] := by
  have h : |(1/20 : Rat)| < 1/10 := by norm_num [abs_of_pos]
  exact ⟨h, (C4_deadzone_stop motor0 (1/20) [] h).2.1,
    (C4_deadzone_stop motor0 (1/20) [] h).2.1,
    (C4_deadzone_stop motor0 (1/20) [] h).2.2.2.1⟩

/-- C10 (confirmed): whenever `run_at_speed` reaches its division
`base_delay / abs(speed)`, the deadzone guard has already excluded
`|speed| < 0.1`, so the divisor is at least 0.1 (never zero) and the
computed delay is positive and at most `base_delay / 0.1 = 0.01`. -/
theorem C10_delay_safe (speed d : Rat) (h : computeDelay speed = some d) :
    1/10 ≤ |speed| ∧ 0 < d ∧ d ≤ 1/100 := by
  have h2 : 10⁻¹ ≤ |speed| ∧ BASE_DELAY / |speed| = d := by
    simpa [computeDelay] using h
  obtain ⟨hge', hd'⟩ := h2
  have hge : 1/10 ≤ |speed| := by rwa [one_div]
  have hd : d = BASE_DELAY / |speed| := hd'.symm
  · have hpos : (0 : Rat) < |speed| := lt_of_lt_of_le (by norm_num) hge
    refine ⟨hge, ?_, ?_⟩
    · rw [hd]
      exact div_pos (by norm_num [BASE_DELAY]) hpos
    · rw [hd]
      calc BASE_DELAY / |speed| ≤ BASE_DELAY / (1/10) := by
            gcongr
            norm_num [BASE_DELAY]
        _ = 1/100 := by norm_num [BASE_DELAY]

/-- Witness for C10 at full speed 1.0: the delay is 1 ms, positive and
at most 10 ms. -/
theorem C10_witness :
    computeDelay 1 = some (1/1000)
    ∧ (1/10 ≤ |(1 : Rat)| ∧ (0 : Rat) < 1/1000 ∧ (1/1000 : Rat) ≤ 1/100) := by
  have h : computeDelay 1 = some (1/1000) := by
    norm_num [computeDelay, BASE_DELAY, abs_of_pos]
  exact ⟨h, C10_delay_safe 1 (1/1000) h⟩

/-- C3 (counterexample): the claimed delay `max(MIN_DELAY,
BASE_DELAY/|speed|)` with the defaults MIN_DELAY = 3 ms, BASE_DELAY = 1 ms
disagrees with the source already at full speed: the code computes 1 ms
where the claimed formula gives 3 ms.  The source applies no floor to the
quotient. -/
theorem C3_counterexample :
    computeDelay 1 = some (1/1000)
    ∧ delaySpecMinFloor (3/1000) 1 = 3/1000
    ∧ (1/1000 : Rat) ≠ 3/1000 := by
  norm_num [computeDelay, BASE_DELAY, delaySpecMinFloor, abs_of_pos, max_def]

/-- C3 (amended): the per-step delay actually computed is exactly
`BASE_DELAY / |speed|`, with no `MIN_DELAY` floor; for clamped speeds
(`|speed| ≤ 1`) the quotient is never below `BASE_DELAY` itself, so the
only floor that holds is the trivial one. -/
theorem C3_delay_no_floor (speed d : Rat) (h : computeDelay speed = some d) :
    d = BASE_DELAY / |speed|
    ∧ (|speed| ≤ 1 → d = max BASE_DELAY (BASE_DELAY / |speed|)) := by
  have h2 : 10⁻¹ ≤ |speed| ∧ BASE_DELAY / |speed| = d := by
    simpa [computeDelay] using h
  obtain ⟨hge', hd'⟩ := h2
  have hd : d = BASE_DELAY / |speed| := hd'.symm
  · have hpos : (0 : Rat) < |speed| := lt_of_lt_of_le (by norm_num) hge'
    refine ⟨hd, fun h1 => ?_⟩
    have hfloor : BASE_DELAY ≤ BASE_DELAY / |speed| := by
      rw [le_div_iff₀ hpos]
      calc BASE_DELAY * |speed| ≤ BASE_DELAY * 1 := by
            gcongr
            norm_num [BASE_DELAY]
        _ = BASE_DELAY := by ring
    rw [hd, max_eq_right hfloor]

/-- Witness for C3 at half speed: the code's delay is 2 ms, which is the
bare quotient `BASE_DELAY / 0.5` and coincides with the trivial
`BASE_DELAY` floor. -/
theorem C3_witness :
    computeDelay (1/2) = some (1/500)
    ∧ ((1/500 : Rat) = BASE_DELAY / |(1/2 : Rat)|
       ∧ (|(1/2 : Rat)| ≤ 1 → (1/500 : Rat) = max BASE_DELAY (BASE_DELAY / |(1/2 : Rat)|))) := by
  have h : computeDelay (1/2) = some (1/500) := by
    norm_num [computeDelay, BASE_DELAY, abs_of_pos]
  exact ⟨h, C3_delay_no_floor (1/2) (1/500) h⟩

/-- C6 (confirmed): for any deadzone in `(0, 1)`, `apply_deadzone` returns
0 inside the deadzone and rescales the remainder as
`sign(v) * (|v| - dz) / (1 - dz)` outside it; in particular it maps `dz`
to 0 and the full deflections 1 and -1 to 1 and -1. -/
theorem C6_apply_deadzone (v dz : Rat) (h0 : 0 < dz) (h1 : dz < 1) :
    (|v| < dz → apply_deadzone v dz = 0)
    ∧ (dz ≤ |v| → apply_deadzone v dz = signR v * (|v| - dz) / (1 - dz))
    ∧ apply_deadzone dz dz = 0
    ∧ apply_deadzone 1 dz = 1
    ∧ apply_deadzone (-1) dz = -1 := by
  have hne : (1 : Rat) - dz ≠ 0 := by
    have : (0 : Rat) < 1 - dz := by linarith
    exact ne_of_gt this
  refine ⟨?_, ?_, ?_, ?_, ?_⟩
  · intro h
    simp only [apply_deadzone]
    rw [if_pos h]
  · intro h
    have hnot : ¬ |v| < dz := not_lt.mpr h
    rcases lt_trichotomy 0 v with hv | hv | hv
    · have hnot2 : ¬ v < dz := by rwa [abs_of_pos hv] at hnot
      simp only [apply_deadzone, signR]
      rw [abs_of_pos hv, if_neg hnot2, if_pos hv, if_pos hv, one_mul]
    · exfalso
      rw [← hv, abs_zero] at h
      linarith
    · have hnot2 : ¬ -v < dz := by rwa [abs_of_neg hv] at hnot
      have hnotpos : ¬ 0 < v := by linarith
      simp only [apply_deadzone, signR]
      rw [abs_of_neg hv, if_neg hnot2, if_neg hnotpos, if_neg hnotpos, if_pos hv]
      congr 1
      ring
  · have hnot : ¬ |dz| < dz := not_lt.mpr (le_abs_self dz)
    simp only [apply_deadzone]
    rw [if_neg hnot, if_pos h0, sub_self, zero_div]
  · have hnot : ¬ |(1 : Rat)| < dz := by
      rw [abs_one]
      linarith
    simp only [apply_deadzone]
    rw [if_neg hnot, if_pos one_pos, div_self hne]
  · have hnot : ¬ |(-1 : Rat)| < dz := by
      rw [abs_neg, abs_one]
      linarith
    have hnotpos : ¬ (0 : Rat) < -1 := by norm_num
    simp only [apply_deadzone]
    rw [if_neg hnot, if_neg hnotpos,
      show (-1 : Rat) + dz = -(1 - dz) by ring, neg_div, div_self hne]

/-- Witness for C6 at `v = 1/2`, `dz = 1/5`. -/
theorem C6_witness :
    (0 : Rat) < 1/5 ∧ (1/5 : Rat) < 1
    ∧ ((|(1/2 : Rat)| < 1/5 → apply_deadzone (1/2) (1/5) = 0)
       ∧ ((1/5 : Rat) ≤ |(1/2 : Rat)| →
           apply_deadzone (1/2) (1/5) = signR (1/2) * (|(1/2 : Rat)| - 1/5) / (1 - 1/5))
       ∧ apply_deadzone (1/5) (1/5) = 0
       ∧ apply_deadzone 1 (1/5) = 1
       ∧ apply_deadzone (-1) (1/5) = -1) := by
  exact ⟨by norm_num, by norm_num, C6_apply_deadzone (1/2) (1/5) (by norm_num) (by norm_num)⟩

/-- C7 (confirmed): arcade mixing forms `left = forward + turn` and
`right = forward - turn`; whenever the larger magnitude exceeds 1 both
are divided by it, which caps both magnitudes at 1 and preserves the
left/right ratio (stated as the cross product of the outputs with the raw
powers). -/
theorem C7_arcade_normalization (f t : Rat) (h : 1 < max |f + t| |f - t|) :
    arcadeDrive f t =
      ((f + t) / max |f + t| |f - t|, (f - t) / max |f + t| |f - t|)
    ∧ |(arcadeDrive f t).1| ≤ 1
    ∧ |(arcadeDrive f t).2| ≤ 1
    ∧ (arcadeDrive f t).1 * (f - t) = (arcadeDrive f t).2 * (f + t) := by
  have hpos : (0 : Rat) < max |f + t| |f - t| := lt_trans one_pos h
  have he : arcadeDrive f t =
      ((f + t) / max |f + t| |f - t|, (f - t) / max |f + t| |f - t|) := by
    simp only [arcadeDrive]
    rw [if_pos h]
  refine ⟨he, ?_, ?_, ?_⟩
  · rw [he, abs_div, abs_of_pos hpos]
    exact div_le_one_of_le₀ (le_max_left _ _) (le_of_lt hpos)
  · rw [he, abs_div, abs_of_pos hpos]
    exact div_le_one_of_le₀ (le_max_right _ _) (le_of_lt hpos)
  · rw [he]
    ring

/-- Witness for C7 at the spec's example `forward = 0.9`, `turn = 0.3`:
raw powers `(1.2, 0.6)`, normalised outputs `(1.0, 0.5)`. -/
theorem C7_witness :
    1 < max |(9/10 : Rat) + 3/10| |(9/10 : Rat) - 3/10|
    ∧ (9/10 : Rat) + 3/10 = 6/5
    ∧ (9/10 : Rat) - 3/10 = 3/5
    ∧ arcadeDrive (9/10) (3/10) = (1, 1/2) := by
  have h : 1 < max |(9/10 : Rat) + 3/10| |(9/10 : Rat) - 3/10| := by
    norm_num [lt_max_iff, lt_abs]
  refine ⟨h, by norm_num, by norm_num, ?_⟩
  rw [(C7_arcade_normalization (9/10) (3/10) h).1]
  norm_num [abs_of_pos, max_def]

/-- C2 (counterexample): cancellation delivered at the sleep point of
`run_at_speed` propagates out of the bare loop body, so the loop retires
with the last written step pattern still asserted on the coils — the
cancellation exit path does not deassert them. -/
theorem C2_counterexample :
    (run_at_speed motor0 1 [SleepEvent.cancel]).2 = ExitPath.cancelled
    ∧ (run_at_speed motor0 1 [SleepEvent.cancel]).1.coils ≠ [0, 0, 0, 0] := by
  norm_num [run_at_speed, runLoop, motor0, stepMotor, STEP_SEQUENCE, abs_of_pos]

/-- C2 (amended): the unconditional cleanup holds for `move_motor` of
`WebRover_3.py` — on both of its exit paths (normal completion and
stop-flag break) all four pins end driven low — and for the deadzone/stop
path of `run_at_speed`; the cancellation and loop-exit paths of
`run_at_speed` do not deassert the coils. -/
theorem C2_cleanup_amended :
    (∀ n d flag, (move_motor n d flag).pins = [0, 0, 0, 0])
    ∧ ∀ (m : Motor) (speed : Rat) (sched : List SleepEvent), |speed| < 1/10 →
        (run_at_speed m speed sched).1.coils = [0, 0, 0, 0]
        ∧ (run_at_speed m speed sched).2 = ExitPath.deadzone := by
  constructor
  · intro n d flag
    rfl
  · intro m speed sched h
    simp only [run_at_speed]
    rw [if_pos h]
    exact ⟨rfl, rfl⟩

/-- Helper: appending a new-tagged task keeps every non-new queue entry a
cancelled parked task. -/
theorem queue_inv_append (rest : List EvTask) (x : EvTask)
    (hrest : ∀ t ∈ rest, t.isNew = false → ∃ d, t.st = TaskSt.parked d true)
    (hx : x.isNew = true) :
    ∀ t ∈ rest ++ [x], t.isNew = false → ∃ d, t.st = TaskSt.parked d true := by
  intro t ht hf
  rcases List.mem_append.mp ht with h | h
  · exact hrest t h hf
  · rw [List.mem_singleton] at h
    subst h
    rw [hx] at hf
    simp at hf

/-- Helper: appending a new-tagged write keeps every recorded write
new-tagged. -/
theorem writes_inv_append (ws : List (Bool × List Nat)) (p : List Nat)
    (hw : ∀ w ∈ ws, w.1 = true) :
    ∀ w ∈ ws ++ [(true, p)], w.1 = true := by
  intro w hmem
  rcases List.mem_append.mp hmem with h | h
  · exact hw w h
  · rw [List.mem_singleton] at h
    subst h
    rfl

/-- Helper: one event-loop step preserves the invariant that every non-new
task in the queue is a cancelled parked loop and every recorded write was
issued by the new task.  A cancelled parked task resumes only to raise
`CancelledError` and retire, so it never reaches the write. -/
theorem evStep_invariant (s : EvState)
    (hq : ∀ t ∈ s.queue, t.isNew = false → ∃ d, t.st = TaskSt.parked d true)
    (hw : ∀ w ∈ s.writes, w.1 = true) :
    (∀ t ∈ (evStep s).queue, t.isNew = false → ∃ d, t.st = TaskSt.parked d true)
    ∧ ∀ w ∈ (evStep s).writes, w.1 = true := by
  obtain ⟨mo, q, ws⟩ := s
  cases q with
  | nil => exact ⟨hq, hw⟩
  | cons t rest =>
    obtain ⟨b, st⟩ := t
    have hrest : ∀ t ∈ rest, t.isNew = false → ∃ d, t.st = TaskSt.parked d true :=
      fun t ht => hq t (List.mem_cons_of_mem _ ht)
    cases st with
    | finished e => exact ⟨hrest, hw⟩
    | parked d c =>
      cases c with
      | true => exact ⟨hrest, hw⟩
      | false =>
        cases b with
        | false =>
          obtain ⟨d2, hd2⟩ :=
            hq ⟨false, TaskSt.parked d false⟩ (List.mem_cons_self _ _) rfl
          simp at hd2
        | true =>
          simp only [evStep]
          split
          · exact ⟨queue_inv_append rest _ hrest rfl, writes_inv_append ws _ hw⟩
          · exact ⟨hrest, hw⟩
    | entry sp =>
      cases b with
      | false =>
        obtain ⟨d2, hd2⟩ :=
          hq ⟨false, TaskSt.entry sp⟩ (List.mem_cons_self _ _) rfl
        simp at hd2
      | true =>
        simp only [evStep]
        split
        · exact ⟨hrest, hw⟩
        · exact ⟨queue_inv_append rest _ hrest rfl, writes_inv_append ws _ hw⟩

/-- Helper: any number of event-loop steps from an invariant state yields
only new-tagged writes. -/
theorem evRun_writes_new (n : Nat) : ∀ s : EvState,
    (∀ t ∈ s.queue, t.isNew = false → ∃ d, t.st = TaskSt.parked d true) →
    (∀ w ∈ s.writes, w.1 = true) →
    ∀ w ∈ (evRun n s).writes, w.1 = true := by
  induction n with
  | zero => intro s _ hw; exact hw
  | succ k ih =>
    intro s hq hw
    show ∀ w ∈ (evRun k (evStep s)).writes, w.1 = true
    exact ih (evStep s) (evStep_invariant s hq hw).1 (evStep_invariant s hq hw).2

/-- C1 (counterexample): after `set_tank_drive` cancels the parked loop and
creates the new task, one FIFO scheduling step retires the old loop — but
the channel's coils still hold the old loop's last pattern `[1,1,0,0]`,
not the deasserted state, and the new loop's first write then follows at
the next step.  So the previous loop is not "fully retired (cancellation
observed to completion, coils deasserted)" before the new loop's first
write: `set_tank_drive` neither awaits the cancellation nor deasserts the
coils. -/
theorem C1_counterexample :
    (evRun 1 (setTankChannel mParked 1 (-1))).queue
      = [{ isNew := true, st := TaskSt.entry (-1) }]
    ∧ (evRun 1 (setTankChannel mParked 1 (-1))).motor.coils ≠ [0, 0, 0, 0]
    ∧ (evRun 1 (setTankChannel mParked 1 (-1))).motor.coils = [1, 1, 0, 0]
    ∧ (evRun 2 (setTankChannel mParked 1 (-1))).writes = [(true, [1, 0, 0, 0])] := by
  norm_num [evRun, evStep, setTankChannel, mParked, run_at_speed, runLoop, motor0,
    stepMotor, STEP_SEQUENCE, abs_of_pos, abs_of_neg]

/-- C1 (amended): under the FIFO asyncio scheduling of `set_tank_drive`,
the cancelled previous loop issues no write after its cancellation — every
coil write recorded by the event loop is tagged as coming from the new
task, so the two loops never drive the channel concurrently; the previous
loop's retirement is however not awaited and its last pattern stays on the
coils. -/
theorem C1_no_double_drive (m : Motor) (oldDir : Int) (newSpeed : Rat)
    (n : Nat) (w : Bool × List Nat)
    (hw : w ∈ (evRun n (setTankChannel m oldDir newSpeed)).writes) :
    w.1 = true := by
  refine evRun_writes_new n (setTankChannel m oldDir newSpeed) ?_ ?_ w hw
  · intro t ht hf
    simp only [setTankChannel, List.mem_cons, List.not_mem_nil, or_false] at ht
    rcases ht with rfl | rfl
    · exact ⟨oldDir, rfl⟩
    · simp at hf
  · intro w hmem
    simp [setTankChannel] at hmem

/-- Witness for C1 on the concrete supersession scenario: the single write
of the first two scheduling steps is the new loop's. -/
theorem C1_witness :
    (true, [1, 0, 0, 0]) ∈ (evRun 2 (setTankChannel mParked 1 (-1))).writes
    ∧ ((true, [1, 0, 0, 0]) : Bool × List Nat).1 = true := by
  have hmem : (true, [1, 0, 0, 0]) ∈ (evRun 2 (setTankChannel mParked 1 (-1))).writes := by
    norm_num [evRun, evStep, setTankChannel, mParked, run_at_speed, runLoop, motor0,
      stepMotor, STEP_SEQUENCE, abs_of_pos, abs_of_neg]
  exact ⟨hmem, C1_no_double_drive mParked 1 (-1) 2 (true, [1, 0, 0, 0]) hmem⟩

/-- C8 (counterexample): the `"stop"` command does not route the pair
`(0.0, 0.0)` through the channel speed-setting path — `execute_command`
handles it with `self.stop()` alone and passes no pair to
`set_tank_drive`. -/
theorem C8_counterexample : executeCommandPair "stop" ≠ some (0, 0) := by
  decide

/-- C8 (amended): `execute_command` passes exactly the fixed pairs
Forward `(1,1)`, Backward `(-1,-1)`, TurnLeft `(-0.5,0.5)`, TurnRight
`(0.5,-0.5)` to `set_tank_drive`; the Stop command instead performs the
controller's `stop()` with no `set_tank_drive` call, and the resulting
channel state is the same as routing `(0.0, 0.0)` through the
speed-setting path would produce. -/
theorem C8_command_map :
    executeCommandPair "forward" = some (1, 1)
    ∧ executeCommandPair "backward" = some (-1, -1)
    ∧ executeCommandPair "left" = some (-(1/2), 1/2)
    ∧ executeCommandPair "right" = some (1/2, -(1/2))
    ∧ executeCommandPair "stop" = none
    ∧ ∀ (c : Controller) (sl sr : List SleepEvent),
        executeCommand c "stop" sl sr = setTankDrive (controllerStop c) 0 0 sl sr := by
  refine ⟨rfl, rfl, rfl, rfl, rfl, ?_⟩
  intro c sl sr
  have h1 : executeCommand c "stop" sl sr = controllerStop c := rfl
  have h2 : setTankDrive (controllerStop c) 0 0 sl sr = controllerStop c := by
    norm_num [setTankDrive, run_at_speed, controllerStop, stopMotor]
  rw [h1, h2]

/-- Helper: the magnitude of a toward-zero truncation is at most `k`
exactly when the magnitude of the rational is strictly below `k + 1`. -/
theorem pyInt_abs_le_iff (q : Rat) (k : Int) :
    |pyInt q| ≤ k ↔ |q| < (k : Rat) + 1 := by
  by_cases hq : q < 0
  · have h1 : 0 ≤ ⌊-q⌋ := by
      rw [Int.le_floor]
      push_cast
      linarith
    simp only [pyInt]
    rw [if_pos hq, abs_neg, abs_of_nonneg h1, abs_of_neg hq, Int.floor_le_iff]
  · have h0 : (0 : Rat) ≤ q := not_lt.mp hq
    have h1 : 0 ≤ ⌊q⌋ := by
      rw [Int.le_floor]
      push_cast
      linarith
    simp only [pyInt]
    rw [if_neg hq, abs_of_nonneg h1, abs_of_nonneg h0, Int.floor_le_iff]

/-- C9 (counterexample): a tank-drive frame whose post-deadzone speeds are
`(0.04, 0)` — both strictly below 5% of maximum — still starts new motion:
it scales to 8 steps, and the source gate `abs(steps) > 5` lets it
through.  The gate is at 5 of 200 steps (2.5%), not 5%. -/
theorem C9_counterexample :
    |apply_deadzone (29/125) DEADZONE| < 1/20
    ∧ |apply_deadzone 0 DEADZONE| < 1/20
    ∧ handleTankFrame (29/125) 0 = some (8, 0)
    ∧ handleTankFrame (29/125) 0 ≠ none := by
  have h3 : handleTankFrame (29/125) 0 = some (8, 0) := by
    norm_num [handleTankFrame, apply_deadzone, DEADZONE, MAX_SPEED_STEPS, pyInt,
      abs_lt, lt_abs, le_abs, abs_le]
  refine ⟨?_, ?_, h3, ?_⟩
  · norm_num [apply_deadzone, DEADZONE, abs_lt, le_abs, abs_le]
  · norm_num [apply_deadzone, DEADZONE, abs_lt, le_abs, abs_le]
  · rw [h3]
    exact Option.some_ne_none _

/-- C9 (amended): the insignificant-motion gate keeps the previous state
(no `move_rover` call) exactly when both scaled step counts have
magnitude at most 5 of the 200 budget steps; because `int()` truncates
toward zero, this holds exactly when both post-deadzone speeds are
strictly below 3% of maximum, not 5%. -/
theorem C9_insignificant_gate (leftY rightY : Rat) :
    handleTankFrame leftY rightY = none
    ↔ (|apply_deadzone leftY DEADZONE| < 3/100
       ∧ |apply_deadzone rightY DEADZONE| < 3/100) := by
  have key : ∀ a : Rat, |pyInt (a * MAX_SPEED_STEPS)| ≤ 5 ↔ |a| < 3/100 := by
    intro a
    rw [pyInt_abs_le_iff, abs_mul,
      show |MAX_SPEED_STEPS| = 200 by norm_num [MAX_SPEED_STEPS, abs_of_pos]]
    constructor
    · intro h
      push_cast at h
      linarith
    · intro h
      push_cast
      linarith
  simp only [handleTankFrame]
  by_cases hc : 5 < |pyInt (apply_deadzone leftY DEADZONE * MAX_SPEED_STEPS)|
      ∨ 5 < |pyInt (apply_deadzone rightY DEADZONE * MAX_SPEED_STEPS)|
  · rw [if_pos hc]
    constructor
    · intro h
      exact absurd h (Option.some_ne_none _)
    · intro h
      exfalso
      rcases hc with hc | hc
      · exact absurd ((key _).mpr h.1) (not_le.mpr hc)
      · exact absurd ((key _).mpr h.2) (not_le.mpr hc)
  · rw [if_neg hc]
    push_neg at hc
    constructor
    · intro _
      exact ⟨(key _).mp hc.1, (key _).mp hc.2⟩
    · intro _
      rfl

/-- Witness for C9 at the truncation boundary: a frame whose post-deadzone
speeds are 2.6% of maximum — 5.2 steps' worth in exact arithmetic, which
`int()` truncates to exactly 5 — starts no new motion, even though it lies
above 2.5%. -/
theorem C9_witness :
    |apply_deadzone (138/625) DEADZONE| < 3/100
    ∧ (1/40 : Rat) < |apply_deadzone (138/625) DEADZONE|
    ∧ handleTankFrame (138/625) (138/625) = none := by
  have h : |apply_deadzone (138/625) DEADZONE| < 3/100 := by
    norm_num [apply_deadzone, DEADZONE, abs_lt, le_abs, abs_le, abs_of_pos]
  refine ⟨h, ?_, (C9_insignificant_gate (138/625) (138/625)).mpr ⟨h, h⟩⟩
  norm_num [apply_deadzone, DEADZONE, abs_lt, le_abs, abs_le, abs_of_pos]

end Rover
